import Mathlib

/-!
Verification development for the agent-skills evaluation pipeline
(`scripts/evaluate-agent-skills.mjs` and `scripts/llm-evaluator.mjs`).

The JavaScript sources are embedded shallowly: pure functions over strings
become Lean functions over `String`/`List Char`; file reads are modelled as
`Option String` arguments (with `none` for a `readFileSync` failure); a JS
runtime `TypeError` (e.g. calling `toLowerCase` on an array-valued
frontmatter field) is modelled by an `Option` result being `none`.
JavaScript regular expressions are translated by hand into total character
list scanners that realise the same matching semantics (including the
relevant backtracking behaviour), restricted to the character classes those
regexes use.
-/

/-! ### JavaScript string primitives (on `List Char`) -/

/-- Whitespace per the JS `\s` class and `String.prototype.trim`. -/
def isJsWs (c : Char) : Bool :=
  c = ' ' || c = '\t' || c = '\n' || c = '\x0b' || c = '\x0c' || c = '\r' ||
  c = '\u00a0' || c = '\u1680' || ('\u2000' ≤ c && c ≤ '\u200a') ||
  c = '\u2028' || c = '\u2029' || c = '\u202f' || c = '\u205f' ||
  c = '\u3000' || c = '\ufeff'

/-- Line terminators: the characters NOT matched by `.` in a JS regex, and
the positions after which a multiline `^` matches. -/
def isLineTerm (c : Char) : Bool :=
  c = '\n' || c = '\r' || c = '\u2028' || c = '\u2029'

/-- Word characters per the JS `\w` class: ASCII letters, digits and
underscore. -/
def isWordChar (c : Char) : Bool :=
  ('a' ≤ c && c ≤ 'z') || ('A' ≤ c && c ≤ 'Z') || ('0' ≤ c && c ≤ '9') || c = '_'

/-- Digits per the JS `\d` class. -/
def isDigitChar (c : Char) : Bool := '0' ≤ c && c ≤ '9'

/-- Prefix test on character lists (JS `String.prototype.startsWith`). -/
def startsWithL (pat : List Char) (l : List Char) : Bool :=
  match pat, l with
  | [], _ => true
  | _ :: _, [] => false
  | p :: ps, c :: cs => p = c && startsWithL ps cs

/-- Substring test (JS `String.prototype.includes`). -/
def containsSub (pat : List Char) (l : List Char) : Bool :=
  startsWithL pat l ||
    match l with
    | [] => false
    | _ :: r => containsSub pat r

/-- First index (counting from `i`) at which `pat` occurs in `l`, if any. -/
def findSub (pat : List Char) (l : List Char) (i : Nat) : Option Nat :=
  if startsWithL pat l then some i
  else
    match l with
    | [] => none
    | _ :: r => findSub pat r (i + 1)

/-- Strip JS whitespace from both ends (JS `String.prototype.trim`). -/
def trimList (l : List Char) : List Char :=
  ((l.dropWhile isJsWs).reverse.dropWhile isJsWs).reverse

/-- Prepend a character to the first chunk of a split result. -/
def consHead (a : Char) : List (List Char) → List (List Char)
  | [] => [[a]]
  | h :: t => (a :: h) :: t

/-- Split on a single-character separator (JS `String.prototype.split`): the
result is never empty; an empty input yields `[[]]`. -/
def jsSplit (c : Char) : List Char → List (List Char)
  | [] => [[]]
  | a :: r => if a = c then [] :: jsSplit c r else consHead a (jsSplit c r)

/-- Join chunks with a single-character separator (JS
`Array.prototype.join`). -/
def joinSep (c : Char) : List (List Char) → List Char
  | [] => []
  | [h] => h
  | h :: t => h ++ c :: joinSep c t

/-- Lowercasing per JS `String.prototype.toLowerCase`, restricted to the
ASCII case mapping (all strings the pipeline lowercases are ASCII). -/
def lowerList (l : List Char) : List Char := l.map Char.toLower

/-- String-level `trim`. -/
def jsTrim (s : String) : String := String.mk (trimList s.data)

/-- String-level `startsWith`. -/
def startsWithS (s pat : String) : Bool := startsWithL pat.data s.data

/-- String-level `includes`. -/
def jsIncludes (s pat : String) : Bool := containsSub pat.data s.data

/-- String-level `toLowerCase`. -/
def lowerStr (s : String) : String := String.mk (lowerList s.data)

/-- Line count as computed by the source: `s.split('\n').length`. -/
def countLines (s : String) : Nat := (jsSplit '\n' s.data).length

/-! ### Document Parser (`parseSkillFile`) -/

/-- A frontmatter field value: a scalar string, or an ordered list of strings
when the raw value was bracket-wrapped (`[ ... ]`). -/
inductive FieldValue where
  | scalar : String → FieldValue
  | arr : List String → FieldValue
deriving DecidableEq

/-- Parsed frontmatter: a JS object in insertion order with distinct keys (a
later duplicate key overwrites the stored value in place). -/
abbrev Fields := List (String × FieldValue)

/-- Object property lookup. -/
def lookupField (fs : Fields) (k : String) : Option FieldValue :=
  match fs with
  | [] => none
  | (k', v) :: rest => if k' = k then some v else lookupField rest k

/-- Object property assignment: overwrite in place if the key exists,
otherwise append. -/
def insertReplace (fs : Fields) (k : String) (v : FieldValue) : Fields :=
  match fs with
  | [] => [(k, v)]
  | (k', v') :: rest =>
    if k' = k then (k, v) :: rest else (k', v') :: insertReplace rest k v

/-- Truthiness of a stored field value (for `!frontmatter[field]`): an empty
string is falsy, every other string and every array is truthy. -/
def truthyV (v : FieldValue) : Bool :=
  match v with
  | .scalar s => decide (s ≠ "")
  | .arr _ => true

/-- Truthiness of `frontmatter[field]`: `false` when the key is absent
(`undefined`). -/
def truthyLookup (fs : Fields) (k : String) : Bool :=
  match lookupField fs k with
  | some v => truthyV v
  | none => false

/-- String coercion of a field value, as in a JS template literal (an array
stringifies to its elements joined by commas). -/
def valueToStr (v : FieldValue) : String :=
  match v with
  | .scalar s => s
  | .arr xs => String.intercalate "," xs

/-- Value part of one header line, per the regex tail `\s*(.+)$` applied
after the colon. `\s*` is greedy over JS whitespace, backtracking so that
`.+` (one or more non-line-terminator characters reaching the end) is
nonempty: a remainder with a non-whitespace character yields it with its
whitespace prefix stripped (failing if a line terminator occurs in it); an
all-whitespace nonempty remainder yields just its last character; an empty
remainder fails. -/
def parseValueJS (rest : List Char) : Option (List Char) :=
  if rest.dropWhile isJsWs ≠ [] then
    if (rest.dropWhile isJsWs).any isLineTerm then none
    else some (rest.dropWhile isJsWs)
  else
    match rest.getLast? with
    | some c => if isLineTerm c then none else some [c]
    | none => none

/-- One header line against `^(\w+):\s*(.+)$`: the maximal `\w+` prefix must
be nonempty and immediately followed by `:`; the remainder must produce a
value per `parseValueJS`. Non-matching lines are silently skipped by the
caller. -/
def parseHeaderLine (line : List Char) : Option (List Char × List Char) :=
  if line.takeWhile isWordChar = [] then none
  else if (line.dropWhile isWordChar).head? = some ':' then
    match parseValueJS (line.dropWhile isWordChar).tail with
    | some v => some (line.takeWhile isWordChar, v)
    | none => none
  else none

/-- Conversion of a raw header value: a value that starts with `[` and ends
with `]` is sliced, split on commas and each part trimmed into an array;
anything else is a scalar. -/
def convertValue (v : List Char) : FieldValue :=
  if startsWithL ['['] v && v.getLast? = some ']' then
    .arr (((jsSplit ',' ((v.drop 1).dropLast)).map trimList).map String.mk)
  else
    .scalar (String.mk v)

/-- One step of the header fold: a matching line stores its field, any
other line leaves the object unchanged. -/
def parseFieldsStep (fs : Fields) (line : List Char) : Fields :=
  match parseHeaderLine line with
  | none => fs
  | some (k, v) => insertReplace fs (String.mk k) (convertValue v)

/-- Fold of the header lines into the fields object, skipping non-matching
lines. -/
def parseFields (lines : List (List Char)) : Fields :=
  lines.foldl parseFieldsStep []

/-- Frontmatter regex `^---\n([\s\S]+?)\n---` (anchored at position 0, no
multiline flag): the text must start with the marker `---` plus newline, and
the lazily matched nonempty group ends at the first occurrence of `\n---`
at index at least 5. Returns the group's characters and the length of the
whole match. -/
def frontmatterMatch (data : List Char) : Option (List Char × Nat) :=
  if startsWithL ['-', '-', '-', '\n'] data then
    match findSub ['\n', '-', '-', '-'] (data.drop 5) 5 with
    | some p => some ((data.drop 4).take (p - 4), p + 4)
    | none => none
  else none

/-- A parsed skill document: the frontmatter fields, the trimmed body after
the closing marker, and the full original content (whose lines
`validateSkillDetailed` counts). -/
structure ParsedDoc where
  frontmatter : Fields
  body : String
  content : String
deriving DecidableEq

/-- Document Parser `parseSkillFile`, as a pure function of the file content
(the enclosing `readFileSync` failure is modelled at the caller). -/
def parseSkillFile (content : String) : Except String ParsedDoc :=
  match frontmatterMatch content.data with
  | none => .error "No YAML frontmatter found"
  | some (fmChars, matchLen) =>
    .ok ⟨parseFields (jsSplit '\n' fmChars),
         String.mk (trimList (content.data.drop matchLen)),
         content⟩

/-! ### Rule-Based Validator, simple mode (`validateSkill`) -/

/-- Required frontmatter fields, from the source. -/
def REQUIRED_FIELDS : List String := ["name", "description", "version", "tags"]

/-- Recommended frontmatter fields, from the source. -/
def RECOMMENDED_FIELDS : List String := ["author"]

/-- Result record built by `validateSkill`. -/
structure SkillResult where
  passed : Bool
  errors : List String
  warnings : List String
  score : Int
deriving DecidableEq

/-- Test `/\d+\./.test(body)`: some digit is immediately followed by a dot
(equivalently, the regex matches with the digit run ending before the
dot). -/
def hasDigitDot : List Char → Bool
  | [] => false
  | [_] => false
  | a :: b :: r => (isDigitChar a && b = '.') || hasDigitDot (b :: r)

/-- Case-insensitive prefix test against a lowercase ASCII pattern (for
`/.../i` regex alternatives). -/
def startsWithCI (pat : List Char) (l : List Char) : Bool :=
  startsWithL pat (lowerList l)

/-- Match of `##?\s*(Step|Phase|Stage)` (case-insensitive) at one position:
one `#`, a second `#` consumed greedily if present, maximal `\s*`, then one
of the three words. -/
def stepHeadAt (l : List Char) : Bool :=
  match l with
  | '#' :: r =>
    let r' := match r with
      | '#' :: r2 => r2
      | _ => r
    let s := r'.dropWhile isJsWs
    startsWithCI ['s', 't', 'e', 'p'] s || startsWithCI ['p', 'h', 'a', 's', 'e'] s ||
      startsWithCI ['s', 't', 'a', 'g', 'e'] s
  | _ => false

/-- Unanchored regex test: the position predicate holds at some suffix. -/
def anySuffix (p : List Char → Bool) : List Char → Bool
  | [] => p []
  | c :: r => p (c :: r) || anySuffix p r

/-- Review-mode `hasSteps`: `/\d+\./.test(body) ||
/##?\s*(Step|Phase|Stage)/i.test(body)`. -/
def hasStepsB (body : String) : Bool :=
  hasDigitDot body.data || anySuffix stepHeadAt body.data

/-- Review-mode description check: warn unless the lowercased description
contains a trigger phrase. Yields `none` for an array-valued description,
where the JS `desc.toLowerCase()` throws a `TypeError`. -/
def descTriggerWarn (fm : Fields) : Option (List String) :=
  match lookupField fm "description" with
  | none => some []
  | some v =>
    if truthyV v then
      match v with
      | .scalar d =>
        some (if !(jsIncludes (lowerStr d) "use when") &&
                 !(jsIncludes (lowerStr d) "triggers on") then
                ["Description missing trigger hint (e.g., \"Use when...\")"]
              else [])
      | .arr _ => none
    else some []

/-- The four review-mode content warnings of `validateSkill`, in source
order: code examples, step structure, description trigger hint, body length.
The value is `none` on the array-description `TypeError`. -/
def verboseWarnings (pd : ParsedDoc) : Option (List String) :=
  let body := pd.body
  let w1 := if !(jsIncludes body "```") && !(jsIncludes (lowerStr body) "example") then
      ["No code examples detected"] else []
  let w2 := if !(hasStepsB body) then
      ["No clear step-by-step structure detected"] else []
  (descTriggerWarn pd.frontmatter).map fun w3 =>
    let w4 := if countLines body < 20 then
        ["SKILL.md body is short (" ++ toString (countLines body) ++ " lines)"] else []
    w1 ++ w2 ++ w3 ++ w4

/-- Simple validator `validateSkill`. `file` is the content of `SKILL.md`
(`none` when the read fails). The early-return branches keep the initial
score `0`; the main path scores `max 0 (100 - 20*errors - 5*warnings)`. -/
def validateSkill (file : Option String) (verbose : Bool) : Option SkillResult :=
  match file with
  | none => some ⟨false, ["SKILL.md not found"], [], 0⟩
  | some content =>
    match parseSkillFile content with
    | .error e => some ⟨false, ["Failed to parse: " ++ e], [], 0⟩
    | .ok pd =>
      let errs := (REQUIRED_FIELDS.filter
          (fun f => !(truthyLookup pd.frontmatter f))).map
          (fun f => "Missing required field: " ++ f)
      let warnsRec := (RECOMMENDED_FIELDS.filter
          (fun f => !(truthyLookup pd.frontmatter f))).map
          (fun f => "Missing recommended field: " ++ f)
      match (if verbose then verboseWarnings pd else some []) with
      | none => none
      | some vw =>
        let warns := warnsRec ++ vw
        some ⟨errs.isEmpty, errs, warns,
              max 0 (100 - 20 * (errs.length : Int) - 5 * (warns.length : Int))⟩

/-! ### Rule-Based Validator, detailed mode (`validateSkillDetailed`) -/

/-- One validation check: a name, a status string (`pass`, `warn`, `fail`, or
`error` in the two early-return branches), and a message. -/
structure Check where
  name : String
  status : String
  message : String
deriving DecidableEq

/-- Number of checks with status `warn`. -/
def warnCount (cs : List Check) : Nat :=
  (cs.filter (fun c => c.status = "warn")).length

/-- Number of checks with status `fail`. -/
def failCount (cs : List Check) : Nat :=
  (cs.filter (fun c => c.status = "fail")).length

/-- Running state of `validateSkillDetailed`: the accumulated checks (in
push order), the running `overallScore`, and the `passed` flag. -/
structure DetSt where
  checks : List Check
  score : Int
  passed : Bool
deriving DecidableEq

/-- Push a `pass` check (the source never changes score or flag there). -/
def pushPass (st : DetSt) (n m : String) : DetSt :=
  ⟨st.checks ++ [⟨n, "pass", m⟩], st.score, st.passed⟩

/-- Push a `warn` check; every warn push in the source is paired with
`overallScore -= 5`. -/
def pushWarn (st : DetSt) (n m : String) : DetSt :=
  ⟨st.checks ++ [⟨n, "warn", m⟩], st.score - 5, st.passed⟩

/-- Push a `fail` check; every fail push in the source is paired with
`passed = false` and no score change. -/
def pushFail (st : DetSt) (n m : String) : DetSt :=
  ⟨st.checks ++ [⟨n, "fail", m⟩], st.score, false⟩

/-- Coerced string of `frontmatter[field]` for the check messages (template
literals). -/
def lookupStr (fm : Fields) (f : String) : String :=
  match lookupField fm f with
  | some v => valueToStr v
  | none => "undefined"

/-- Check of the full SKILL.md line count against 500. -/
def detLineCountCheck (content : String) (st : DetSt) : DetSt :=
  let lc := countLines content
  if lc ≤ 500 then
    pushPass st "skill_md_line_count" ("SKILL.md line count is " ++ toString lc ++ " (<= 500)")
  else
    pushFail st "skill_md_line_count" ("SKILL.md line count is " ++ toString lc ++ " (> 500)")

/-- Unconditional `frontmatter_valid` pass check. -/
def detFrontmatterValid (st : DetSt) : DetSt :=
  pushPass st "frontmatter_valid" "YAML frontmatter is valid"

/-- Loop over the required fields: pass when truthy, else fail. -/
def detRequiredGo (fm : Fields) : List String → DetSt → DetSt
  | [], st => st
  | f :: rest, st =>
    detRequiredGo fm rest
      (if truthyLookup fm f then
        pushPass st (f ++ "_field") ("'" ++ f ++ "' field is valid: '" ++ lookupStr fm f ++ "'")
      else
        pushFail st (f ++ "_field") ("Missing required field: " ++ f))

/-- Loop over the recommended fields: pass when truthy, else warn. -/
def detRecommendedGo (fm : Fields) : List String → DetSt → DetSt
  | [], st => st
  | f :: rest, st =>
    detRecommendedGo fm rest
      (if truthyLookup fm f then
        pushPass st (f ++ "_field") ("'" ++ f ++ "' field is present: '" ++ lookupStr fm f ++ "'")
      else
        pushWarn st (f ++ "_field") ("Missing recommended field: " ++ f))

/-- Tags format check, gated on a truthy `tags` value: pass for a nonempty
array, warn otherwise. -/
def detTags (fm : Fields) (st : DetSt) : DetSt :=
  match lookupField fm "tags" with
  | some v =>
    if truthyV v then
      match v with
      | .arr xs =>
        if xs.length > 0 then
          pushPass st "tags_format" ("Tags array has " ++ toString xs.length ++ " items")
        else
          pushWarn st "tags_format" "Tags should be a non-empty array"
      | .scalar _ => pushWarn st "tags_format" "Tags should be a non-empty array"
    else st
  | none => st

/-- Test of the semver regex `^\d+\.\d+\.\d+(-.*)?$`: three nonempty digit
runs separated by dots, optionally followed by `-` and any characters other
than line terminators, reaching the end. -/
def semverTest (s : List Char) : Bool :=
  let d1 := s.takeWhile isDigitChar
  if d1 = [] then false
  else
    match s.drop d1.length with
    | '.' :: r1 =>
      let d2 := r1.takeWhile isDigitChar
      if d2 = [] then false
      else
        match r1.drop d2.length with
        | '.' :: r2 =>
          let d3 := r2.takeWhile isDigitChar
          if d3 = [] then false
          else
            match r2.drop d3.length with
            | [] => true
            | '-' :: r3 => !(r3.any isLineTerm)
            | _ => false
        | _ => false
    | _ => false

/-- Version format check, gated on a truthy `version` value (the regex test
coerces the value to a string). -/
def detVersion (fm : Fields) (st : DetSt) : DetSt :=
  match lookupField fm "version" with
  | some v =>
    if truthyV v then
      if semverTest (valueToStr v).data then
        pushPass st "version_format" ("Version follows semver: " ++ valueToStr v)
      else
        pushWarn st "version_format" ("Version doesn't follow semver: " ++ valueToStr v)
    else st
  | none => st

/-- Description checks (length, then trigger hint), gated on a truthy
`description`. The JS computes `desc.toLowerCase()` first, so an
array-valued description throws a `TypeError`, modelled as `none`. -/
def detDescription (fm : Fields) (st : DetSt) : Option DetSt :=
  match lookupField fm "description" with
  | some v =>
    if truthyV v then
      match v with
      | .scalar d =>
        let st1 :=
          if 20 ≤ d.length && d.length ≤ 200 then
            pushPass st "description_length" ("Description length is " ++ toString d.length ++ " chars")
          else
            pushWarn st "description_length"
              ("Description length is " ++ toString d.length ++ " chars (should be 20-200)")
        some (if jsIncludes (lowerStr d) "use when" || jsIncludes (lowerStr d) "triggers on" then
          pushPass st1 "description_trigger_hint" "Description includes trigger hint"
        else
          pushWarn st1 "description_trigger_hint"
            "Description missing trigger hint (e.g., \"Use when...\")")
      | .arr _ => none
    else some st
  | none => some st

/-- Match of `^#{1,3}\s` at one line start: one to three `#` characters
followed by a whitespace character (backtracking over the counted
repetition). -/
def headingAt (l : List Char) : Bool :=
  match l with
  | '#' :: c1 :: rest =>
    if isJsWs c1 then true
    else if c1 = '#' then
      match rest with
      | c2 :: rest2 =>
        if isJsWs c2 then true
        else if c2 = '#' then
          match rest2 with
          | c3 :: _ => isJsWs c3
          | [] => false
        else false
      | [] => false
    else false
  | _ => false

/-- Match of `^\d+\.` at one line start: a digit run (at least one digit)
followed by a dot. -/
def numberedAt (l : List Char) : Bool :=
  match l with
  | c :: _ => isDigitChar c && ((l.dropWhile isDigitChar).head? = some '.')
  | [] => false

/-- Scan for positions right after a line terminator (helper of
`anyLineStart`). -/
def anyLineStartAux (p : List Char → Bool) : List Char → Bool
  | [] => false
  | c :: r => (isLineTerm c && p r) || anyLineStartAux p r

/-- A multiline `^P` test holds at position 0 or right after any line
terminator. -/
def anyLineStart (p : List Char → Bool) (l : List Char) : Bool :=
  p l || anyLineStartAux p l

/-- Detailed-mode `hasStructure`: `/^#{1,3}\s/m.test(body) ||
/^\d+\./m.test(body)`. -/
def hasStructureB (body : String) : Bool :=
  anyLineStart headingAt body.data || anyLineStart numberedAt body.data

/-- Body checks (length, examples, structure), gated on a truthy (nonempty)
body. -/
def detBody (body : String) (st : DetSt) : DetSt :=
  if body ≠ "" then
    let bodyLines := countLines body
    let st1 :=
      if bodyLines ≥ 20 then
        pushPass st "body_length" ("Body has " ++ toString bodyLines ++ " lines (>= 20)")
      else
        pushWarn st "body_length" ("Body is short (" ++ toString bodyLines ++ " lines)")
    let st2 :=
      if jsIncludes body "```" || jsIncludes (lowerStr body) "example" then
        pushPass st1 "has_examples" "Content includes code examples"
      else
        pushWarn st1 "has_examples" "No code examples detected"
    if hasStructureB body then
      pushPass st2 "has_structure" "Content has clear structure (headings or numbered steps)"
    else
      pushWarn st2 "has_structure" "No clear structure detected"
  else st

/-- Result record built by `validateSkillDetailed`. The two early-return
branches build objects without `score`, `frontmatter` or `body` properties,
modelled as `none`. -/
structure DetResult where
  passed : Bool
  checks : List Check
  score : Option Int
  frontmatter : Option Fields
  body : Option String
deriving DecidableEq

/-- Detailed validator `validateSkillDetailed` (used by the llm mode), as a
function of the `SKILL.md` content (`none` when the read fails). Only warn
checks change the running score; the final score is clamped at 0. -/
def validateSkillDetailed (file : Option String) : Option DetResult :=
  match file with
  | none =>
    some ⟨false, [⟨"skill_md_exists", "error", "SKILL.md not found"⟩], none, none, none⟩
  | some content =>
    match parseSkillFile content with
    | .error e =>
      some ⟨false, [⟨"parse_error", "error", "Failed to parse: " ++ e⟩], none, none, none⟩
    | .ok pd =>
      let st1 := detLineCountCheck content ⟨[], 100, true⟩
      let st2 := detFrontmatterValid st1
      let st3 := detRequiredGo pd.frontmatter REQUIRED_FIELDS st2
      let st4 := detRecommendedGo pd.frontmatter RECOMMENDED_FIELDS st3
      let st5 := detTags pd.frontmatter st4
      let st6 := detVersion pd.frontmatter st5
      match detDescription pd.frontmatter st6 with
      | none => none
      | some st7 =>
        let st8 := detBody pd.body st7
        some ⟨st8.passed, st8.checks, some (max 0 st8.score),
              some pd.frontmatter, some pd.body⟩

/-! ### Report aggregation (the `all` branch of `main`) -/

/-- Summary counters of an `all`-skills run. -/
structure RunSummary where
  passedCount : Nat
  failedCount : Nat
  totalScore : Int
  avgScore : Int
  exitCode : Nat
deriving DecidableEq

/-- Rounded average as computed by `Math.round(totalScore / skills.length)`:
the exact rational division rounded half toward positive infinity. -/
def jsRoundDiv (total : Int) (n : Nat) : Int :=
  Int.fdiv (2 * total + n) (2 * n)

/-- Aggregation of the per-skill results of an `all` run, mirroring the
accumulation loop and summary of `main`: `passed`/`failed` counters, score
total, guarded average, and exit code `1` iff some skill failed. -/
def runAllSummary (results : List SkillResult) : RunSummary :=
  let passedCount := (results.filter (fun r => r.passed)).length
  let failedCount := (results.filter (fun r => !r.passed)).length
  let totalScore := (results.map (fun r => r.score)).sum
  let avgScore := if results.length > 0 then jsRoundDiv totalScore results.length else 0
  ⟨passedCount, failedCount, totalScore, avgScore, if failedCount > 0 then 1 else 0⟩

/-! ### Judge Client (`llm-evaluator.mjs`) -/

/-- The two environment values read at module load of `llm-evaluator.mjs`. -/
structure LLMEnv where
  OPEN_AI_LLM_URL : Option String
  LLM_API_KEY : Option String
deriving DecidableEq

/-- Truthiness of an environment variable: unset (`undefined`) and the empty
string are falsy. -/
def jsTruthyOpt (v : Option String) : Bool :=
  match v with
  | some s => decide (s ≠ "")
  | none => false

/-- The configuration the judge client runs with. -/
structure LLMConfig where
  baseUrl : String
  apiKey : String
deriving DecidableEq

/-- Default endpoint substituted by `BASE_URL = process.env.OPEN_AI_LLM_URL
|| 'https://api.groq.com/openai/v1'`. -/
def defaultGroqUrl : String := "https://api.groq.com/openai/v1"

/-- Module-load logic of `llm-evaluator.mjs`: the base URL falls back to the
default when the environment value is falsy; a falsy `LLM_API_KEY` makes the
module print an error and `process.exit(1)` before any network call,
modelled as `Except.error`. -/
def initLLMConfig (env : LLMEnv) : Except String LLMConfig :=
  let baseUrl :=
    if jsTruthyOpt env.OPEN_AI_LLM_URL then env.OPEN_AI_LLM_URL.getD "" else defaultGroqUrl
  if jsTruthyOpt env.LLM_API_KEY then
    .ok ⟨baseUrl, env.LLM_API_KEY.getD ""⟩
  else
    .error "Error: LLM_API_KEY environment variable is required"

/-- Fence-stripping of `evaluateSkill` (lines 166-180 of the source): trim
the completion; if it starts with three backticks, split into lines, drop
the first line when it contains backtick fences and the last line when it
does, rejoin and trim; finally drop a leading case-insensitive `json` label.
The value is `none` when the JS would access `lines[-1]` of an empty array
(a `TypeError`, reachable only for degenerate completions). -/
def extractJsonStr (content : String) : Option String :=
  let j0 := jsTrim content
  let step :=
    if startsWithS j0 "```" then
      let ls := jsSplit '\n' j0.data
      let ls := if containsSub "```".data (ls.headD []) then ls.tail else ls
      match ls.getLast? with
      | none => none
      | some last =>
        some (jsTrim (String.mk (joinSep '\n'
          (if containsSub "```".data last then ls.dropLast else ls))))
    else some j0
  match step with
  | none => none
  | some j1 =>
    if startsWithS (lowerStr j1) "json" then some (jsTrim (j1.drop 4)) else some j1

/-- A JSON value as produced by `JSON.parse`, with numbers restricted to the
integer fragment of the JSON grammar (all numeric fields of a judge
evaluation are integer scores; the embedded parser rejects fractional or
exponent forms instead of approximating them). -/
inductive Json where
  | null : Json
  | bool : Bool → Json
  | num : Int → Json
  | str : String → Json
  | arr : List Json → Json
  | obj : List (String × Json) → Json

/-- JSON insignificant whitespace (space, tab, newline, carriage return). -/
def skipJWs (l : List Char) : List Char :=
  l.dropWhile (fun c => c = ' ' || c = '\t' || c = '\n' || c = '\r')

/-- Hexadecimal digit value (codepoint arithmetic: `0`-`9` are 48-57,
`A`-`F` are 65-70, `a`-`f` are 97-102). -/
def hexDigitVal (c : Char) : Option Nat :=
  let n := c.toNat
  if 48 ≤ n && n ≤ 57 then some (n - 48)
  else if 97 ≤ n && n ≤ 102 then some (n - 87)
  else if 65 ≤ n && n ≤ 70 then some (n - 55)
  else none

/-- Single-character JSON string escapes. -/
def jsonEscape (c : Char) : Option Char :=
  match c with
  | '"' => some '"'
  | '\\' => some '\\'
  | '/' => some '/'
  | 'b' => some '\x08'
  | 'f' => some '\x0c'
  | 'n' => some '\n'
  | 'r' => some '\r'
  | 't' => some '\t'
  | _ => none

/-- Body of a JSON string after the opening quote; control characters are
rejected as in the JSON grammar. `\uXXXX` escapes map through `Char.ofNat`
(lone surrogates, which JS strings tolerate, are not representable in a
`Char` and collapse to the null character). -/
def jsonStrChars (fuel : Nat) (l : List Char) : Option (List Char × List Char) :=
  match fuel with
  | 0 => none
  | fuel + 1 =>
    match l with
    | [] => none
    | '"' :: r => some ([], r)
    | '\\' :: 'u' :: a :: b :: c :: d :: r =>
      match hexDigitVal a, hexDigitVal b, hexDigitVal c, hexDigitVal d with
      | some va, some vb, some vc, some vd =>
        match jsonStrChars fuel r with
        | some (cs, rest) => some (Char.ofNat (((va * 16 + vb) * 16 + vc) * 16 + vd) :: cs, rest)
        | none => none
      | _, _, _, _ => none
    | '\\' :: e :: r =>
      match jsonEscape e with
      | some ch =>
        match jsonStrChars fuel r with
        | some (cs, rest) => some (ch :: cs, rest)
        | none => none
      | none => none
    | c :: r =>
      if c.toNat < 32 then none
      else
        match jsonStrChars fuel r with
        | some (cs, rest) => some (c :: cs, rest)
        | none => none

/-- Digit run folded to a natural number. -/
def digitsToNat (ds : List Char) : Nat :=
  ds.foldl (fun acc c => acc * 10 + (c.toNat - '0'.toNat)) 0

/-- A JSON number in the integer fragment: optional minus, then `0` or a
run without a leading zero; a following `.`, `e` or `E` (the fractional
forms) is rejected rather than modelled. -/
def jsonNum (l : List Char) : Option (Int × List Char) :=
  let (neg, l1) := match l with
    | '-' :: r => (true, r)
    | _ => (false, l)
  let ds := l1.takeWhile isDigitChar
  if ds = [] then none
  else if 2 ≤ ds.length && ds.headD '0' = '0' then none
  else
    match l1.drop ds.length with
    | '.' :: _ => none
    | 'e' :: _ => none
    | 'E' :: _ => none
    | rest => some (if neg then -(digitsToNat ds : Int) else (digitsToNat ds : Int), rest)

mutual

/-- Recursive-descent JSON value parser, structural on a fuel counter (any
fuel at least the remaining nesting work suffices; `jsonParse` below passes
more than the input length). -/
def jsonVal (fuel : Nat) (l : List Char) : Option (Json × List Char) :=
  match fuel with
  | 0 => none
  | fuel + 1 =>
    match skipJWs l with
    | 'n' :: 'u' :: 'l' :: 'l' :: r => some (.null, r)
    | 't' :: 'r' :: 'u' :: 'e' :: r => some (.bool true, r)
    | 'f' :: 'a' :: 'l' :: 's' :: 'e' :: r => some (.bool false, r)
    | '"' :: r =>
      match jsonStrChars (r.length + 1) r with
      | some (cs, rest) => some (.str (String.mk cs), rest)
      | none => none
    | '[' :: r =>
      match skipJWs r with
      | ']' :: rest => some (.arr [], rest)
      | _ =>
        match jsonElems fuel r with
        | some (xs, rest) => some (.arr xs, rest)
        | none => none
    | '\x7b' :: r =>
      match skipJWs r with
      | '\x7d' :: rest => some (.obj [], rest)
      | _ =>
        match jsonMembers fuel r with
        | some (ms, rest) => some (.obj ms, rest)
        | none => none
    | other =>
      match jsonNum other with
      | some (n, rest) => some (.num n, rest)
      | none => none

/-- One or more comma-separated array elements, then `]`. -/
def jsonElems (fuel : Nat) (l : List Char) : Option (List Json × List Char) :=
  match fuel with
  | 0 => none
  | fuel + 1 =>
    match jsonVal fuel l with
    | none => none
    | some (v, r) =>
      match skipJWs r with
      | ',' :: r2 =>
        match jsonElems fuel r2 with
        | some (xs, rest) => some (v :: xs, rest)
        | none => none
      | ']' :: rest => some ([v], rest)
      | _ => none

/-- One or more comma-separated object members, then the closing brace. -/
def jsonMembers (fuel : Nat) (l : List Char) : Option (List (String × Json) × List Char) :=
  match fuel with
  | 0 => none
  | fuel + 1 =>
    match skipJWs l with
    | '"' :: r =>
      match jsonStrChars (r.length + 1) r with
      | none => none
      | some (cs, r1) =>
        match skipJWs r1 with
        | ':' :: r2 =>
          match jsonVal fuel r2 with
          | none => none
          | some (v, r3) =>
            match skipJWs r3 with
            | ',' :: r4 =>
              match jsonMembers fuel r4 with
              | some (ms, rest) => some ((String.mk cs, v) :: ms, rest)
              | none => none
            | '\x7d' :: rest => some ([(String.mk cs, v)], rest)
            | _ => none
        | _ => none
    | _ => none

end

/-- Top-level `JSON.parse` model: one value, then only whitespace to the end
of the input. -/
def jsonParse (s : String) : Option Json :=
  match jsonVal (2 * s.data.length + 4) s.data with
  | some (v, rest) => if skipJWs rest = [] then some v else none
  | none => none

/-- Property access on a parsed object; duplicate keys resolve to the last
occurrence, as `JSON.parse` overwrites earlier ones. -/
def getField (j : Json) (k : String) : Option Json :=
  match j with
  | .obj fs => lookupLastJ fs k
  | _ => none
where
  /-- Last-binding lookup in a member list. -/
  lookupLastJ : List (String × Json) → String → Option Json
    | [], _ => none
    | (k', v) :: rest, k =>
      match lookupLastJ rest k with
      | some r => some r
      | none => if k' = k then some v else none

/-- Numeric projection of a JSON value. -/
def asInt (j : Json) : Option Int :=
  match j with
  | .num n => some n
  | _ => none

/-- The decoding pipeline of `evaluateSkill` applied to a completion text:
strip fences and the `json` label, then `JSON.parse`. The network call that
yields the completion is the external collaborator; everything after it is
this pure function. -/
def evaluateSkillDecode (content : String) : Option Json :=
  match extractJsonStr content with
  | some s => jsonParse s
  | none => none

/-- The `score` number of one category object of a decoded evaluation. -/
def judgeCategoryScore (content cat : String) : Option Int :=
  match evaluateSkillDecode content with
  | some j =>
    match getField j cat with
    | some c =>
      match getField c "score" with
      | some s => asInt s
      | none => none
    | none => none
  | none => none

/-- The `overall_score` number of a decoded evaluation. -/
def judgeOverallScore (content : String) : Option Int :=
  match evaluateSkillDecode content with
  | some j =>
    match getField j "overall_score" with
    | some s => asInt s
    | none => none
  | none => none

/-! ### Helper lemmas about the string primitives -/

/-- A split result is never empty. -/
theorem jsSplit_ne_nil (c : Char) (l : List Char) : jsSplit c l ≠ [] := by
  induction l with
  | nil => simp [jsSplit]
  | cons a r ih =>
    simp only [jsSplit]
    split
    · simp
    · match h : jsSplit c r with
      | [] => exact absurd h ih
      | x :: xs => simp [consHead]

/-- Prepending to the head chunk commutes with appending further chunks. -/
theorem consHead_append (a : Char) (x y : List (List Char)) (hx : x ≠ []) :
    consHead a (x ++ y) = consHead a x ++ y := by
  cases x with
  | nil => exact absurd rfl hx
  | cons h t => simp [consHead]

/-- Splitting across an explicit separator occurrence splits each side
independently. -/
theorem jsSplit_append_cons (c : Char) (u v : List Char) :
    jsSplit c (u ++ c :: v) = jsSplit c u ++ jsSplit c v := by
  induction u with
  | nil => simp [jsSplit]
  | cons a r ih =>
    by_cases h : a = c
    · subst h
      simp [jsSplit, ih]
    · show jsSplit c (a :: (r ++ c :: v)) = jsSplit c (a :: r) ++ jsSplit c v
      simp only [jsSplit, if_neg h, ih]
      exact consHead_append a (jsSplit c r) (jsSplit c v) (jsSplit_ne_nil c r)

/-- Joining a split reproduces the original list. -/
theorem joinSep_jsSplit (c : Char) (l : List Char) : joinSep c (jsSplit c l) = l := by
  induction l with
  | nil => simp [jsSplit, joinSep]
  | cons a r ih =>
    by_cases h : a = c
    · subst h
      simp only [jsSplit, if_pos rfl]
      match hr : jsSplit a r with
      | [] => exact absurd hr (jsSplit_ne_nil a r)
      | x :: xs =>
        simp only [joinSep]
        rw [hr] at ih
        simp [ih]
    · simp only [jsSplit, if_neg h]
      match hr : jsSplit c r with
      | [] => exact absurd hr (jsSplit_ne_nil c r)
      | x :: xs =>
        rw [hr] at ih
        cases xs with
        | nil => simpa [consHead, joinSep] using ih
        | cons y ys => simpa [consHead, joinSep] using ih

/-- Trimming fixes a list whose two end characters are not whitespace. -/
theorem trimList_of_ends (a b : Char) (mid : List Char)
    (ha : isJsWs a = false) (hb : isJsWs b = false) :
    trimList (a :: (mid ++ [b])) = a :: (mid ++ [b]) := by
  have h1 : List.dropWhile isJsWs (a :: (mid ++ [b])) = a :: (mid ++ [b]) := by
    simp [List.dropWhile_cons, ha]
  have h2 : (a :: (mid ++ [b])).reverse = b :: (mid.reverse ++ [a]) := by simp
  have h3 : List.dropWhile isJsWs (b :: (mid.reverse ++ [a])) = b :: (mid.reverse ++ [a]) := by
    simp [List.dropWhile_cons, hb]
  unfold trimList
  rw [h1, h2, h3, ← h2, List.reverse_reverse]

/-- String append acts on the underlying character lists. -/
theorem strData_append (a b : String) : (a ++ b).data = a.data ++ b.data := by
  cases a
  cases b
  rfl

/-- Rebuilding a string from its characters is the identity. -/
theorem strMk_data (s : String) : String.mk s.data = s := by
  cases s
  rfl

/-- Fence-wrapping invariance of the extraction step: wrapping a completion
whose trimmed form does not itself start with a fence (true of any JSON
text) in a labelled code fence extracts the same string. -/
theorem extractJsonStr_fence_wrap (t : String)
    (h : startsWithS (jsTrim t) "```" = false) :
    extractJsonStr ("```json\n" ++ t ++ "\n```") = extractJsonStr t := by
  have h1 : "```json\n".data = ['`', '`', '`', 'j', 's', 'o', 'n', '\n'] := rfl
  have h2 : "\n```".data = ['\n', '`', '`', '`'] := rfl
  have hW : ("```json\n" ++ t ++ "\n```").data
      = ['`', '`', '`', 'j', 's', 'o', 'n', '\n'] ++ t.data ++ ['\n', '`', '`', '`'] := by
    rw [strData_append, strData_append, h1, h2]
  have htrim : trimList (("```json\n" ++ t ++ "\n```").data)
      = ("```json\n" ++ t ++ "\n```").data := by
    rw [hW]
    have hshape : ['`', '`', '`', 'j', 's', 'o', 'n', '\n'] ++ t.data ++ ['\n', '`', '`', '`']
        = '`' :: ((['`', '`', 'j', 's', 'o', 'n', '\n'] ++ (t.data ++ ['\n', '`', '`'])) ++ ['`']) := by
      simp
    rw [hshape, trimList_of_ends '`' '`' _ (by decide) (by decide)]
  have hjt : jsTrim ("```json\n" ++ t ++ "\n```") = "```json\n" ++ t ++ "\n```" := by
    unfold jsTrim
    rw [htrim, strMk_data]
  have hstart : startsWithS ("```json\n" ++ t ++ "\n```") "```" = true := by
    unfold startsWithS
    rw [hW, show "```".data = ['`', '`', '`'] from rfl]
    simp [startsWithL]
  have hsplit : jsSplit '\n' (("```json\n" ++ t ++ "\n```").data)
      = ['`', '`', '`', 'j', 's', 'o', 'n'] :: (jsSplit '\n' t.data ++ [['`', '`', '`']]) := by
    rw [hW]
    have hshape2 : ['`', '`', '`', 'j', 's', 'o', 'n', '\n'] ++ t.data ++ ['\n', '`', '`', '`']
        = ['`', '`', '`', 'j', 's', 'o', 'n'] ++ '\n' :: (t.data ++ '\n' :: ['`', '`', '`']) := by
      simp
    rw [hshape2, jsSplit_append_cons, jsSplit_append_cons]
    rfl
  have hjoin : joinSep '\n' (jsSplit '\n' t.data) = t.data := joinSep_jsSplit '\n' t.data
  have hc1 : containsSub "```".data ['`', '`', '`', 'j', 's', 'o', 'n'] = true := by decide
  have hc2 : containsSub "```".data ['`', '`', '`'] = true := by decide
  simp only [extractJsonStr, hjt, hstart, hsplit, List.headD_cons, List.tail_cons,
    List.getLast?_concat, List.dropLast_concat, hc1, hc2, hjoin, strMk_data, h,
    if_true, if_false, Bool.false_eq_true, ite_false, ite_true]

/-! ### Score invariant of the detailed validator -/

/-- Warn counting distributes over append. -/
theorem warnCount_append (a b : List Check) :
    warnCount (a ++ b) = warnCount a + warnCount b := by
  unfold warnCount
  rw [List.filter_append, List.length_append]

/-- Score invariant threaded through the detailed checks: the running score
always equals 100 minus 5 per warn check pushed so far. -/
def DetInv (st : DetSt) : Prop :=
  st.score = 100 - 5 * (warnCount st.checks : Int)

/-- A pass push preserves the invariant. -/
theorem detInv_pushPass (st : DetSt) (n m : String) (h : DetInv st) :
    DetInv (pushPass st n m) := by
  unfold DetInv pushPass at *
  simp [warnCount_append, warnCount, h]

/-- A fail push preserves the invariant (fail checks never change the
score). -/
theorem detInv_pushFail (st : DetSt) (n m : String) (h : DetInv st) :
    DetInv (pushFail st n m) := by
  unfold DetInv pushFail at *
  simp [warnCount_append, warnCount, h]

/-- A warn push preserves the invariant (each warn costs exactly 5). -/
theorem detInv_pushWarn (st : DetSt) (n m : String) (h : DetInv st) :
    DetInv (pushWarn st n m) := by
  unfold DetInv pushWarn at *
  simp only [warnCount_append, h]
  have : warnCount [⟨n, "warn", m⟩] = 1 := by simp [warnCount]
  rw [this]
  push_cast
  ring

/-- A conditional between a pass push and a warn push preserves the
invariant. -/
theorem detInv_ppw (c : Prop) [Decidable c] (st : DetSt) (n m n' m' : String)
    (h : DetInv st) :
    DetInv (if c then pushPass st n m else pushWarn st n' m') := by
  split
  · exact detInv_pushPass _ _ _ h
  · exact detInv_pushWarn _ _ _ h

/-- A conditional between a pass push and a fail push preserves the
invariant. -/
theorem detInv_ppf (c : Prop) [Decidable c] (st : DetSt) (n m n' m' : String)
    (h : DetInv st) :
    DetInv (if c then pushPass st n m else pushFail st n' m') := by
  split
  · exact detInv_pushPass _ _ _ h
  · exact detInv_pushFail _ _ _ h

/-- The line-count check preserves the invariant. -/
theorem detInv_lineCount (content : String) (st : DetSt) (h : DetInv st) :
    DetInv (detLineCountCheck content st) :=
  detInv_ppf _ _ _ _ _ _ h

/-- The frontmatter-valid check preserves the invariant. -/
theorem detInv_frontmatterValid (st : DetSt) (h : DetInv st) :
    DetInv (detFrontmatterValid st) :=
  detInv_pushPass _ _ _ h

/-- The required-fields loop preserves the invariant. -/
theorem detInv_requiredGo (fm : Fields) (fs : List String) (st : DetSt) (h : DetInv st) :
    DetInv (detRequiredGo fm fs st) := by
  induction fs generalizing st with
  | nil => exact h
  | cons f rest ih =>
    unfold detRequiredGo
    apply ih
    split
    · exact detInv_pushPass _ _ _ h
    · exact detInv_pushFail _ _ _ h

/-- The recommended-fields loop preserves the invariant. -/
theorem detInv_recommendedGo (fm : Fields) (fs : List String) (st : DetSt) (h : DetInv st) :
    DetInv (detRecommendedGo fm fs st) := by
  induction fs generalizing st with
  | nil => exact h
  | cons f rest ih =>
    unfold detRecommendedGo
    apply ih
    split
    · exact detInv_pushPass _ _ _ h
    · exact detInv_pushWarn _ _ _ h

/-- The tags-format check preserves the invariant. -/
theorem detInv_tags (fm : Fields) (st : DetSt) (h : DetInv st) :
    DetInv (detTags fm st) := by
  unfold detTags
  split
  · split
    · split
      · split
        · exact detInv_pushPass _ _ _ h
        · exact detInv_pushWarn _ _ _ h
      · exact detInv_pushWarn _ _ _ h
    · exact h
  · exact h

/-- The version-format check preserves the invariant. -/
theorem detInv_version (fm : Fields) (st : DetSt) (h : DetInv st) :
    DetInv (detVersion fm st) := by
  unfold detVersion
  split
  · split
    · split
      · exact detInv_pushPass _ _ _ h
      · exact detInv_pushWarn _ _ _ h
    · exact h
  · exact h

/-- The description checks preserve the invariant when they do not throw. -/
theorem detInv_description (fm : Fields) (st st' : DetSt) (h : DetInv st)
    (hres : detDescription fm st = some st') : DetInv st' := by
  unfold detDescription at hres
  split at hres
  · split at hres
    · split at hres
      · simp only [Option.some.injEq] at hres
        subst hres
        exact detInv_ppw _ _ _ _ _ _ (detInv_ppw _ _ _ _ _ _ h)
      · exact absurd hres (by simp)
    · simp only [Option.some.injEq] at hres
      subst hres
      exact h
  · simp only [Option.some.injEq] at hres
    subst hres
    exact h

/-- The body checks preserve the invariant. -/
theorem detInv_body (body : String) (st : DetSt) (h : DetInv st) :
    DetInv (detBody body st) := by
  unfold detBody
  split
  · exact detInv_ppw _ _ _ _ _ _ (detInv_ppw _ _ _ _ _ _ (detInv_ppw _ _ _ _ _ _ h))
  · exact h

/-- Score formula of the detailed validator on a successfully parsed
document: the score is exactly 100 less 5 per warn check, clamped at 0;
fail checks contribute nothing. -/
theorem detailedScore_formula (content : String) (r : DetResult)
    (hr : validateSkillDetailed (some content) = some r)
    (pd : ParsedDoc) (hp : parseSkillFile content = .ok pd) :
    r.score = some (max 0 (100 - 5 * (warnCount r.checks : Int))) := by
  simp only [validateSkillDetailed, hp] at hr
  revert hr
  match hdesc : detDescription pd.frontmatter
      (detVersion pd.frontmatter
        (detTags pd.frontmatter
          (detRecommendedGo pd.frontmatter RECOMMENDED_FIELDS
            (detRequiredGo pd.frontmatter REQUIRED_FIELDS
              (detFrontmatterValid (detLineCountCheck content ⟨[], 100, true⟩)))))) with
  | none => intro hr; exact absurd hr (by simp)
  | some st7 =>
    intro hr
    simp only [Option.some.injEq] at hr
    have hinv0 : DetInv ⟨[], 100, true⟩ := by
      unfold DetInv warnCount
      simp
    have hinv7 : DetInv st7 :=
      detInv_description _ _ _
        (detInv_version _ _
          (detInv_tags _ _
            (detInv_recommendedGo _ _ _
              (detInv_requiredGo _ _ _
                (detInv_frontmatterValid _ (detInv_lineCount _ _ hinv0)))))) hdesc
    have hinv8 : DetInv (detBody pd.body st7) := detInv_body _ _ hinv7
    subst hr
    simp only
    rw [hinv8]

/-- Detailed-validator score in all cases: the two early-return results
carry no score at all; every produced score obeys the warn-only formula. -/
theorem detailedScore_cases (file : Option String) (r : DetResult)
    (hr : validateSkillDetailed file = some r) :
    r.score = none ∨ r.score = some (max 0 (100 - 5 * (warnCount r.checks : Int))) := by
  match file with
  | none =>
    simp only [validateSkillDetailed, Option.some.injEq] at hr
    subst hr
    exact Or.inl rfl
  | some content =>
    match hp : parseSkillFile content with
    | .error e =>
      simp only [validateSkillDetailed, hp, Option.some.injEq] at hr
      subst hr
      exact Or.inl rfl
    | .ok pd =>
      exact Or.inr (detailedScore_formula content r hr pd hp)

/-- Simple-validator score formula on a successfully parsed document. -/
theorem validateSkill_score_formula (content : String) (pd : ParsedDoc) (v : Bool)
    (r : SkillResult) (hp : parseSkillFile content = .ok pd)
    (hr : validateSkill (some content) v = some r) :
    r.score = max 0 (100 - 20 * (r.errors.length : Int) - 5 * (r.warnings.length : Int)) := by
  simp only [validateSkill, hp] at hr
  revert hr
  match hvw : (if v then verboseWarnings pd else some []) with
  | none => intro hr; exact absurd hr (by simp)
  | some vw =>
    intro hr
    simp only [Option.some.injEq] at hr
    subst hr
    rfl

/-- Every score the simple validator produces lies between 0 and 100. -/
theorem validateSkill_score_bounds (file : Option String) (v : Bool) (r : SkillResult)
    (hr : validateSkill file v = some r) : 0 ≤ r.score ∧ r.score ≤ 100 := by
  match file with
  | none =>
    simp only [validateSkill, Option.some.injEq] at hr
    subst hr
    exact ⟨le_refl 0, by norm_num⟩
  | some content =>
    match hp : parseSkillFile content with
    | .error e =>
      simp only [validateSkill, hp, Option.some.injEq] at hr
      subst hr
      exact ⟨le_refl 0, by norm_num⟩
    | .ok pd =>
      have hs := validateSkill_score_formula content pd v r hp hr
      rw [hs]
      refine ⟨le_max_left 0 _, max_le (by norm_num) ?_⟩
      omega

/-- A text that does not begin with the frontmatter marker makes the parser
fail with an explicit error. -/
theorem parseSkillFile_error_of_no_marker (content : String)
    (h : startsWithS content "---\n" = false) :
    parseSkillFile content = .error "No YAML frontmatter found" := by
  have hL : startsWithL ['-', '-', '-', '\n'] content.data = false := by
    unfold startsWithS at h
    rwa [show "---\n".data = ['-', '-', '-', '\n'] from rfl] at h
  unfold parseSkillFile frontmatterMatch
  rw [hL]
  simp

/-- The simple validator converts a parse failure into the fixed
single-error result with score 0. -/
theorem validateSkill_parse_error (content : String) (e : String) (v : Bool)
    (hp : parseSkillFile content = .error e) :
    validateSkill (some content) v = some ⟨false, ["Failed to parse: " ++ e], [], 0⟩ := by
  simp only [validateSkill, hp]

/-! ### Structure of parsed header lines (for the key/value claims) -/

/-- A nonempty pattern never occurs inside the empty list. -/
theorem containsSub_nil (c : Char) (ps : List Char) :
    containsSub (c :: ps) [] = false := by
  simp [containsSub, startsWithL]

/-- Any list is a prefix extension of itself. -/
theorem startsWithL_self_append (p q : List Char) : startsWithL p (p ++ q) = true := by
  induction p with
  | nil => simp [startsWithL]
  | cons a r ih => simpa [startsWithL] using ih

/-- Take of the word prefix over an all-word list followed by a non-word
character. -/
theorem takeWhile_all_append (p : Char → Bool) (k r : List Char) (hk : k.all p = true) :
    (k ++ r).takeWhile p = k ++ r.takeWhile p := by
  induction k with
  | nil => simp
  | cons a t ih =>
    simp only [List.all_cons, Bool.and_eq_true] at hk
    simp [List.takeWhile_cons, hk.1, ih hk.2]

/-- Drop of the word prefix over an all-word list. -/
theorem dropWhile_all_append (p : Char → Bool) (k r : List Char) (hk : k.all p = true) :
    (k ++ r).dropWhile p = r.dropWhile p := by
  induction k with
  | nil => simp
  | cons a t ih =>
    simp only [List.all_cons, Bool.and_eq_true] at hk
    simp [List.dropWhile_cons, hk.1, ih hk.2]

/-- A parsed header value is never the empty list. -/
theorem parseValueJS_ne_nil (rest v : List Char) (h : parseValueJS rest = some v) :
    v ≠ [] := by
  unfold parseValueJS at h
  by_cases hd : rest.dropWhile isJsWs = []
  · rw [if_neg (by simpa using hd)] at h
    match hg : rest.getLast? with
    | none => rw [hg] at h; exact absurd h (by simp)
    | some c =>
      simp only [hg] at h
      by_cases hlt : isLineTerm c = true
      · rw [if_pos hlt] at h; exact absurd h (by simp)
      · rw [if_neg hlt] at h
        simp only [Option.some.injEq] at h
        subst h
        simp
  · rw [if_pos (by simpa using hd)] at h
    by_cases ha : (rest.dropWhile isJsWs).any isLineTerm = true
    · rw [if_pos ha] at h; exact absurd h (by simp)
    · rw [if_neg ha] at h
      simp only [Option.some.injEq] at h
      subst h
      exact hd

/-- Shape of every successfully parsed header line: the key is a nonempty
run of word characters, the line starts with the key followed by a colon,
and the value is nonempty. -/
theorem parseHeaderLine_shape (line k v : List Char)
    (h : parseHeaderLine line = some (k, v)) :
    k ≠ [] ∧ k.all isWordChar = true ∧ startsWithL (k ++ [':']) line = true ∧ v ≠ [] := by
  unfold parseHeaderLine at h
  by_cases hkey : line.takeWhile isWordChar = []
  · rw [if_pos hkey] at h
    exact absurd h (by simp)
  · rw [if_neg hkey] at h
    by_cases hcol : (line.dropWhile isWordChar).head? = some ':'
    · rw [if_pos hcol] at h
      match hval : parseValueJS (line.dropWhile isWordChar).tail with
      | none => rw [hval] at h; exact absurd h (by simp)
      | some v' =>
        rw [hval] at h
        simp only [Option.some.injEq, Prod.mk.injEq] at h
        obtain ⟨hk, hv⟩ := h
        subst hk
        subst hv
        have hdshape : line.dropWhile isWordChar
            = ':' :: (line.dropWhile isWordChar).tail := by
          match hD : line.dropWhile isWordChar with
          | [] => rw [hD] at hcol; exact absurd hcol (by simp)
          | c :: t =>
            rw [hD] at hcol
            simp only [List.head?_cons, Option.some.injEq] at hcol
            rw [hcol]
            simp
        refine ⟨hkey, List.all_takeWhile, ?_, parseValueJS_ne_nil _ _ hval⟩
        have hline : line = line.takeWhile isWordChar
            ++ (':' :: (line.dropWhile isWordChar).tail) := by
          conv_lhs => rw [← List.takeWhile_append_dropWhile isWordChar line]
          rw [← hdshape]
        nth_rewrite 2 [hline]
        rw [show line.takeWhile isWordChar ++ (':' :: (line.dropWhile isWordChar).tail)
            = (line.takeWhile isWordChar ++ [':']) ++ (line.dropWhile isWordChar).tail by simp]
        exact startsWithL_self_append _ _
    · rw [if_neg hcol] at h
      exact absurd h (by simp)

/-- An all-word key followed by a bare colon (an empty value) never parses:
the line is silently skipped. -/
theorem parseHeaderLine_empty_value (k : List Char) (hk : k.all isWordChar = true) :
    parseHeaderLine (k ++ [':']) = none := by
  unfold parseHeaderLine
  match k with
  | [] => simp [List.takeWhile_cons, isWordChar, parseValueJS]
  | a :: t =>
    rw [takeWhile_all_append isWordChar (a :: t) [':'] hk]
    rw [dropWhile_all_append isWordChar (a :: t) [':'] hk]
    simp only [List.takeWhile_cons, List.dropWhile_cons,
      show isWordChar ':' = false from rfl]
    rw [if_neg (by simp)]
    rw [if_pos (by simp)]
    simp [parseValueJS]

/-- A key found after an assignment was either just assigned or already
present. -/
theorem lookupField_insertReplace_cases (fs : Fields) (k0 : String) (v : FieldValue)
    (k : String) (fv : FieldValue)
    (h : lookupField (insertReplace fs k0 v) k = some fv) :
    k = k0 ∨ ∃ fv', lookupField fs k = some fv' := by
  induction fs with
  | nil =>
    unfold insertReplace lookupField at h
    split at h
    · exact Or.inl (by rename_i he; exact he.symm)
    · exact absurd h (by simp [lookupField])
  | cons hd rest ih =>
    obtain ⟨k', v'⟩ := hd
    unfold insertReplace at h
    split at h
    · rename_i hk0
      unfold lookupField at h
      split at h
      · exact Or.inl (by rename_i he; exact he.symm)
      · exact Or.inr ⟨fv, by unfold lookupField; rw [if_neg (by rename_i hne; subst hk0; exact hne)]; exact h⟩
    · unfold lookupField at h
      split at h
      · exact Or.inr ⟨v', by unfold lookupField; rw [if_pos (by rename_i he; exact he)]⟩
      · rcases ih h with h1 | ⟨fv', h2⟩
        · exact Or.inl h1
        · exact Or.inr ⟨fv', by unfold lookupField; rw [if_neg (by rename_i hne; exact hne)]; exact h2⟩

/-- Every key stored by the header fold is a nonempty all-word-character
key (lines with any other intended key are skipped, leaving that key
absent). -/
theorem parseFields_key_shape (lines : List (List Char)) (acc : Fields)
    (hacc : ∀ k fv, lookupField acc k = some fv → k.data ≠ [] ∧ k.data.all isWordChar = true)
    (k : String) (fv : FieldValue)
    (h : lookupField (lines.foldl parseFieldsStep acc) k = some fv) :
    k.data ≠ [] ∧ k.data.all isWordChar = true := by
  induction lines generalizing acc with
  | nil => exact hacc k fv h
  | cons line rest ih =>
    refine ih (parseFieldsStep acc line) ?_ h
    intro k1 fv1 h1
    unfold parseFieldsStep at h1
    revert h1
    match hpl : parseHeaderLine line with
    | none => intro h1; exact hacc k1 fv1 h1
    | some (kc, vc) =>
      intro h1
      rcases lookupField_insertReplace_cases acc (String.mk kc) (convertValue vc) k1 fv1 h1 with
        heq | ⟨fv2, h2⟩
      · obtain ⟨hne, hall, _, _⟩ := parseHeaderLine_shape line kc vc hpl
        subst heq
        exact ⟨hne, hall⟩
      · exact hacc k1 fv2 h2

/-- Every key of a parsed document's frontmatter is a nonempty run of word
characters. -/
theorem parseSkillFile_keys_word (content : String) (pd : ParsedDoc)
    (hp : parseSkillFile content = .ok pd) (k : String) (fv : FieldValue)
    (h : lookupField pd.frontmatter k = some fv) :
    k.data ≠ [] ∧ k.data.all isWordChar = true := by
  unfold parseSkillFile at hp
  revert hp
  match hm : frontmatterMatch content.data with
  | none => intro hp; exact absurd hp (by simp)
  | some (fmChars, matchLen) =>
    intro hp
    simp only [Except.ok.injEq] at hp
    subst hp
    exact parseFields_key_shape (jsSplit '\n' fmChars) [] (by intro k fv h; simp [lookupField] at h) k fv h

/-- A required field absent from the frontmatter always contributes its
missing-field error to the simple validator's result. -/
theorem validateSkill_missing_required (content : String) (pd : ParsedDoc) (v : Bool)
    (r : SkillResult) (f : String) (hp : parseSkillFile content = .ok pd)
    (hr : validateSkill (some content) v = some r) (hf : f ∈ REQUIRED_FIELDS)
    (hmiss : lookupField pd.frontmatter f = none) :
    ("Missing required field: " ++ f) ∈ r.errors := by
  simp only [validateSkill, hp] at hr
  revert hr
  match hvw : (if v then verboseWarnings pd else some []) with
  | none => intro hr; exact absurd hr (by simp)
  | some vw =>
    intro hr
    simp only [Option.some.injEq] at hr
    subst hr
    simp only
    exact List.mem_map_of_mem _
      (List.mem_filter.mpr ⟨hf, by simp [truthyLookup, hmiss]⟩)

/-- A recommended field absent from the frontmatter always contributes its
missing-field warning to the simple validator's result. -/
theorem validateSkill_missing_recommended (content : String) (pd : ParsedDoc) (v : Bool)
    (r : SkillResult) (f : String) (hp : parseSkillFile content = .ok pd)
    (hr : validateSkill (some content) v = some r) (hf : f ∈ RECOMMENDED_FIELDS)
    (hmiss : lookupField pd.frontmatter f = none) :
    ("Missing recommended field: " ++ f) ∈ r.warnings := by
  simp only [validateSkill, hp] at hr
  revert hr
  match hvw : (if v then verboseWarnings pd else some []) with
  | none => intro hr; exact absurd hr (by simp)
  | some vw =>
    intro hr
    simp only [Option.some.injEq] at hr
    subst hr
    simp only
    exact List.mem_append_left _ (List.mem_map_of_mem _
      (List.mem_filter.mpr ⟨hf, by simp [truthyLookup, hmiss]⟩))

/-- The exit code of an `all` run is 0 exactly when every package passed. -/
theorem runAllSummary_exit_iff (results : List SkillResult) :
    (runAllSummary results).exitCode = 0 ↔ ∀ r ∈ results, r.passed = true := by
  have hkey : ((results.filter (fun r => !r.passed)).length = 0)
      ↔ ∀ r ∈ results, r.passed = true := by
    rw [List.length_eq_zero, List.filter_eq_nil_iff]
    constructor
    · intro h r hr
      simpa using h r hr
    · intro h r hr
      simp [h r hr]
  unfold runAllSummary
  simp only
  split
  · rename_i hpos
    constructor
    · intro h; exact absurd h (by norm_num)
    · intro hall
      exact absurd (hkey.mpr hall) (by omega)
  · rename_i hnpos
    have hz : (results.filter (fun r => !r.passed)).length = 0 := by omega
    exact ⟨fun _ => hkey.mp hz, fun _ => rfl⟩

deriving instance DecidableEq for Except

/-! ### Concrete documents and results used to instantiate the theorems -/

/-- A minimal well-formed document: one header field and a one-line body. -/
def cTiny : String := "---\nname: x\n---\nbody"

/-- Parse of `cTiny`. -/
def pdTiny : ParsedDoc := ⟨[("name", .scalar "x")], "body", cTiny⟩

/-- Simple-validator result on `cTiny` (three missing required fields, one
missing recommended field). -/
def rTiny35 : SkillResult :=
  ⟨false,
   ["Missing required field: description", "Missing required field: version",
    "Missing required field: tags"],
   ["Missing recommended field: author"], 35⟩

/-- A minimal well-formed document with an empty body. -/
def cTiny2 : String := "---\nname: x\n---"

/-- Parse of `cTiny2`. -/
def pdTiny2 : ParsedDoc := ⟨[("name", .scalar "x")], "", cTiny2⟩

/-- Detailed-validator result on `cTiny2`: three fail checks cost nothing,
the single warn check costs 5. -/
def rTinyDet : DetResult :=
  ⟨false,
   [⟨"skill_md_line_count", "pass", "SKILL.md line count is 3 (<= 500)"⟩,
    ⟨"frontmatter_valid", "pass", "YAML frontmatter is valid"⟩,
    ⟨"name_field", "pass", "'name' field is valid: 'x'"⟩,
    ⟨"description_field", "fail", "Missing required field: description"⟩,
    ⟨"version_field", "fail", "Missing required field: version"⟩,
    ⟨"tags_field", "fail", "Missing required field: tags"⟩,
    ⟨"author_field", "warn", "Missing recommended field: author"⟩],
   some 95, some [("name", FieldValue.scalar "x")], some ""⟩

/-- A 25-line body with a fenced code block but no numbered list and no
step/phase/stage heading. -/
def bodyNoSteps : String :=
  "This package is a sample used for validation.\n\n```\nrun the linter\n```\n\n" ++
  "It explains how the validator treats a body of prose.\n" ++
  "Nothing here resembles a numbered list item.\n" ++
  "The lines below simply pad the body out.\n" ++
  "padding alpha\npadding beta\npadding gamma\npadding delta\npadding epsilon\n" ++
  "padding zeta\npadding eta\npadding theta\npadding iota\npadding kappa\n" ++
  "padding lambda\npadding mu\npadding nu\npadding xi\npadding omicron\npadding pi"

/-- The same 25-line body with a `## Steps` heading, so the review-mode step
heuristic passes. -/
def bodySteps : String :=
  "This package is a sample used for validation.\n\n```\nrun the linter\n```\n\n" ++
  "It explains how the validator treats a body of prose.\n" ++
  "## Steps\n" ++
  "The lines below simply pad the body out.\n" ++
  "padding alpha\npadding beta\npadding gamma\npadding delta\npadding epsilon\n" ++
  "padding zeta\npadding eta\npadding theta\npadding iota\npadding kappa\n" ++
  "padding lambda\npadding mu\npadding nu\npadding xi\npadding omicron\npadding pi"

/-- The scenario header of the spec over the step-free 25-line body. -/
def cReviewGap : String :=
  "---\nname: x\ndescription: Use when testing\nversion: 1.0.0\ntags: [a,b]\nauthor: me\n---\n"
    ++ bodyNoSteps

/-- The scenario header over the body with a step heading. -/
def cReviewOk : String :=
  "---\nname: x\ndescription: Use when testing\nversion: 1.0.0\ntags: [a,b]\nauthor: me\n---\n"
    ++ bodySteps

/-- Parse of `cReviewOk`. -/
def pdReviewOk : ParsedDoc :=
  ⟨[("name", .scalar "x"), ("description", .scalar "Use when testing"),
    ("version", .scalar "1.0.0"), ("tags", .arr ["a", "b"]), ("author", .scalar "me")],
   bodySteps, cReviewOk⟩

/-- A document that passes every detailed check except the required `tags`
field. -/
def cDetNoTags : String :=
  "---\nname: x\ndescription: Use when testing this skill\nversion: 1.0.0\nauthor: me\n---\n" ++
  "# Overview\n\n```\nrun the linter\n```\n\n" ++
  "content alpha\ncontent beta\ncontent gamma\ncontent delta\ncontent epsilon\n" ++
  "content zeta\ncontent eta\ncontent theta\ncontent iota\ncontent kappa\n" ++
  "content lambda\ncontent mu\ncontent nu\ncontent xi\ncontent omicron"

/-- A header whose first line has a hyphenated key and whose second line has
an empty value: both are silently skipped. -/
def cNine : String := "---\nmy-key: v\nname:\ntags: [a]\n---\nbody"

/-- Parse of `cNine`: only `tags` survives. -/
def pdNine : ParsedDoc := ⟨[("tags", .arr ["a"])], "body", cNine⟩

/-- Simple-validator result on `cNine`. -/
def rNine : SkillResult :=
  ⟨false,
   ["Missing required field: name", "Missing required field: description",
    "Missing required field: version"],
   ["Missing recommended field: author"], 35⟩

/-- A judge completion whose `overall_score` is NOT the mean of its category
scores; it decodes without complaint. -/
def cJudgeBad : String :=
  "\x7b\"description\":\x7b\"score\":100\x7d,\"content\":\x7b\"score\":100\x7d," ++
  "\"structure\":\x7b\"score\":100\x7d,\"overall_score\":50\x7d"

/-- A judge completion whose `overall_score` is the mean of its category
scores. -/
def cJudgeGood : String :=
  "\x7b\"description\":\x7b\"score\":100\x7d,\"content\":\x7b\"score\":100\x7d," ++
  "\"structure\":\x7b\"score\":100\x7d,\"overall_score\":100\x7d"

/-- The decoded value of `cJudgeGood`. -/
def jGood : Json :=
  .obj [("description", .obj [("score", .num 100)]),
        ("content", .obj [("score", .num 100)]),
        ("structure", .obj [("score", .num 100)]),
        ("overall_score", .num 100)]

/-! ### Claim theorems -/

/-- Claim C1 (counterexample). The claim says every validation mode scores
`100 - 20 per fail - 5 per warn` (clamped at 0). On `cDetNoTags` the
detailed llm-mode validator produces exactly one fail check and no warn
checks yet scores 100, where the claimed formula would give 80: fail checks
subtract nothing in detailed mode. -/
theorem claim_C1_counterexample :
    (validateSkillDetailed (some cDetNoTags)).map
        (fun r => (failCount r.checks, warnCount r.checks, r.score)) = some (1, 0, some 100)
    ∧ (100 : Int) ≠ max 0 (100 - 20 * 1 - 5 * 0) := by
  constructor
  · decide
  · decide

/-- Claim C1 (amended). For every successfully parsed document the simple
validator (plain lint and review modes) scores
`max 0 (100 - 20 per error - 5 per warning)`, while the detailed llm-mode
validator scores `max 0 (100 - 5 per warn check)`: its fail checks set
`passed` to false but subtract nothing. -/
theorem claim_C1_amended :
    (∀ (content : String) (pd : ParsedDoc) (v : Bool) (r : SkillResult),
        parseSkillFile content = .ok pd → validateSkill (some content) v = some r →
        r.score = max 0 (100 - 20 * (r.errors.length : Int) - 5 * (r.warnings.length : Int)))
    ∧ (∀ (content : String) (pd : ParsedDoc) (r : DetResult),
        parseSkillFile content = .ok pd → validateSkillDetailed (some content) = some r →
        r.score = some (max 0 (100 - 5 * (warnCount r.checks : Int)))) := by
  constructor
  · intro content pd v r hp hr
    exact validateSkill_score_formula content pd v r hp hr
  · intro content pd r hp hr
    exact detailedScore_formula content r hr pd hp

/-- Claim C1 (witness for the amended theorem), instantiated at `cTiny`
(simple mode) and `cTiny2` (detailed mode). -/
theorem claim_C1_amended_witness :
    rTiny35.score
      = max 0 (100 - 20 * (rTiny35.errors.length : Int) - 5 * (rTiny35.warnings.length : Int))
    ∧ rTinyDet.score = some (max 0 (100 - 5 * (warnCount rTinyDet.checks : Int))) :=
  ⟨claim_C1_amended.1 cTiny pdTiny false rTiny35 (by decide) (by decide),
   claim_C1_amended.2 cTiny2 pdTiny2 rTinyDet (by decide) (by decide)⟩

/-- Claim C2. Every score either validator produces lies between 0 and 100,
for every input document and every mode (the detailed validator's two
early-return results carry no score at all; all scores that do result are
clamped into range). -/
theorem claim_C2 :
    (∀ (file : Option String) (v : Bool) (r : SkillResult),
        validateSkill file v = some r → 0 ≤ r.score ∧ r.score ≤ 100)
    ∧ (∀ (file : Option String) (r : DetResult) (s : Int),
        validateSkillDetailed file = some r → r.score = some s → 0 ≤ s ∧ s ≤ 100) := by
  constructor
  · intro file v r hr
    exact validateSkill_score_bounds file v r hr
  · intro file r s hr hs
    rcases detailedScore_cases file r hr with hnone | hsome
    · rw [hnone] at hs
      exact absurd hs (by simp)
    · rw [hsome] at hs
      simp only [Option.some.injEq] at hs
      subst hs
      refine ⟨le_max_left 0 _, max_le (by norm_num) (by omega)⟩

/-- Claim C2 (witness), instantiated at `cTiny` in lint mode and `cTiny2`
in detailed mode. -/
theorem claim_C2_witness :
    (0 ≤ rTiny35.score ∧ rTiny35.score ≤ 100) ∧ (0 ≤ (95 : Int) ∧ (95 : Int) ≤ 100) :=
  ⟨claim_C2.1 (some cTiny) false rTiny35 (by decide),
   claim_C2.2 (some cTiny2) rTinyDet 95 (by decide) (by decide)⟩

/-- Claim C3. A document whose text does not begin with the `---` marker
line parses to an explicit error (no partial header data), and the simple
validator converts it into a failed result with exactly one check: the
fail-severity parse error; no warnings. -/
theorem claim_C3 (content : String) (v : Bool) (r : SkillResult)
    (hnm : startsWithS content "---\n" = false)
    (hr : validateSkill (some content) v = some r) :
    parseSkillFile content = .error "No YAML frontmatter found"
    ∧ r.passed = false
    ∧ r.errors = ["Failed to parse: No YAML frontmatter found"]
    ∧ r.warnings = []
    ∧ r.errors.length + r.warnings.length = 1 := by
  have hp := parseSkillFile_error_of_no_marker content hnm
  have hres := validateSkill_parse_error content "No YAML frontmatter found" v hp
  rw [hres] at hr
  simp only [Option.some.injEq] at hr
  subst hr
  exact ⟨hp, rfl, rfl, rfl, rfl⟩

/-- Claim C3 (witness) at the document `"hello"`. -/
theorem claim_C3_witness :
    parseSkillFile "hello" = .error "No YAML frontmatter found"
    ∧ (⟨false, ["Failed to parse: No YAML frontmatter found"], [], 0⟩ : SkillResult).passed = false
    ∧ (⟨false, ["Failed to parse: No YAML frontmatter found"], [], 0⟩ : SkillResult).errors
        = ["Failed to parse: No YAML frontmatter found"]
    ∧ (⟨false, ["Failed to parse: No YAML frontmatter found"], [], 0⟩ : SkillResult).warnings = []
    ∧ (⟨false, ["Failed to parse: No YAML frontmatter found"], [], 0⟩ : SkillResult).errors.length
        + (⟨false, ["Failed to parse: No YAML frontmatter found"], [], 0⟩ : SkillResult).warnings.length
        = 1 :=
  claim_C3 "hello" false ⟨false, ["Failed to parse: No YAML frontmatter found"], [], 0⟩
    (by decide) (by decide)

/-- Claim C4 (counterexample). The judge client decodes `cJudgeBad` without
complaint into an evaluation whose three category scores are all 100 but
whose `overall_score` is 50: the client never checks or recomputes the mean
relation, so a produced JudgeEvaluation can violate it. -/
theorem claim_C4_counterexample :
    judgeCategoryScore cJudgeBad "description" = some 100
    ∧ judgeCategoryScore cJudgeBad "content" = some 100
    ∧ judgeCategoryScore cJudgeBad "structure" = some 100
    ∧ judgeOverallScore cJudgeBad = some 50
    ∧ ¬ (3 * (50 : Int) = 100 + 100 + 100) := by
  refine ⟨by decide, by decide, by decide, by decide, by decide⟩

/-- Claim C4 (amended). The judge client passes the response's scores
through verbatim — the decoded evaluation's `overall_score` and category
scores are exactly the numbers of the parsed response JSON, with no
validation or recomputation — so `overall_score` equals the mean of the
category scores exactly when the model's response satisfies that relation
(the prompt requests it but nothing enforces it). -/
theorem claim_C4_amended (content : String) (j : Json)
    (h : evaluateSkillDecode content = some j) :
    judgeOverallScore content = (getField j "overall_score").bind asInt
    ∧ ∀ cat : String, judgeCategoryScore content cat
        = ((getField j cat).bind (fun c => getField c "score")).bind asInt := by
  constructor
  · unfold judgeOverallScore
    rw [h]
    cases hg : getField j "overall_score" <;> simp [hg, Option.bind]
  · intro cat
    unfold judgeCategoryScore
    rw [h]
    cases hg : getField j cat
    · simp [hg, Option.bind]
    · rename_i c
      cases hs : getField c "score" <;> simp [hg, hs, Option.bind]

/-- Claim C4 (witness for the amended theorem) at the mean-compliant
completion `cJudgeGood`. -/
theorem claim_C4_amended_witness :
    judgeOverallScore cJudgeGood = (getField jGood "overall_score").bind asInt :=
  (claim_C4_amended cJudgeGood jGood (by rfl)).1

/-- Claim C5 (counterexample). The claim says both the base URL and the API
key must be present or the client fails fast. With the URL absent and only
the key set, module initialisation succeeds (the URL silently falls back to
the default Groq endpoint): the URL is not required. -/
theorem claim_C5_counterexample :
    initLLMConfig ⟨none, some "key"⟩ = .ok ⟨defaultGroqUrl, "key"⟩ := by
  decide

/-- Claim C5 (amended). Only the API key is required: initialisation fails
(printing a configuration error and exiting before any network call can be
made) exactly when `LLM_API_KEY` is unset or empty, and an absent base URL
is replaced by the default Groq endpoint rather than reported. -/
theorem claim_C5_amended (env : LLMEnv) :
    (jsTruthyOpt env.LLM_API_KEY = false →
        initLLMConfig env = .error "Error: LLM_API_KEY environment variable is required")
    ∧ (jsTruthyOpt env.LLM_API_KEY = true → ∃ cfg, initLLMConfig env = .ok cfg)
    ∧ (env.OPEN_AI_LLM_URL = none →
        ∀ cfg, initLLMConfig env = .ok cfg → cfg.baseUrl = defaultGroqUrl) := by
  refine ⟨?_, ?_, ?_⟩
  · intro hk
    unfold initLLMConfig
    rw [hk]
    simp
  · intro hk
    unfold initLLMConfig
    rw [hk]
    simp
  · intro hu cfg hcfg
    unfold initLLMConfig at hcfg
    rw [hu] at hcfg
    revert hcfg
    by_cases hk : jsTruthyOpt env.LLM_API_KEY = true
    · rw [hk]
      intro hcfg
      simp only [if_true, Except.ok.injEq] at hcfg
      subst hcfg
      simp [jsTruthyOpt]
    · rw [Bool.not_eq_true] at hk
      rw [hk]
      intro hcfg
      exact absurd hcfg (by simp)

/-- Claim C5 (witness for the amended theorem): a missing key fails fast; a
present key with an absent URL runs against the default endpoint. -/
theorem claim_C5_witness :
    initLLMConfig ⟨none, none⟩
      = .error "Error: LLM_API_KEY environment variable is required"
    ∧ (⟨defaultGroqUrl, "k"⟩ : LLMConfig).baseUrl = defaultGroqUrl :=
  ⟨(claim_C5_amended ⟨none, none⟩).1 (by decide),
   (claim_C5_amended ⟨none, some "k"⟩).2.2 rfl ⟨defaultGroqUrl, "k"⟩ (by decide)⟩

/-- Claim C6. Judge response decoding is invariant under fence-wrapping:
for any completion whose trimmed text does not itself begin with a fence
(true of every JSON text), wrapping it in a ```` ```json ```` fence decodes
to the same evaluation as the bare text. -/
theorem claim_C6 (t : String) (h : startsWithS (jsTrim t) "```" = false) :
    evaluateSkillDecode ("```json\n" ++ t ++ "\n```") = evaluateSkillDecode t := by
  unfold evaluateSkillDecode
  rw [extractJsonStr_fence_wrap t h]

/-- Claim C6 (witness) at a small JSON object. -/
theorem claim_C6_witness :
    evaluateSkillDecode ("```json\n" ++ "\x7b\"a\":1\x7d" ++ "\n```")
      = evaluateSkillDecode "\x7b\"a\":1\x7d" :=
  claim_C6 "\x7b\"a\":1\x7d" (by decide)

set_option maxRecDepth 20000 in
/-- Claim C7 (counterexample). On `cReviewGap` — the spec's scenario header
over a 25-line body with a fenced code block but no numbered item or
step/phase/stage heading — lint mode scores 100, but review mode emits the
step-structure warning and scores 95, not 100. -/
theorem claim_C7_counterexample :
    (validateSkill (some cReviewGap) false).map (fun r => r.score) = some 100
    ∧ (validateSkill (some cReviewGap) true).map (fun r => (r.score, r.warnings))
        = some (95, ["No clear step-by-step structure detected"]) := by
  constructor
  · decide
  · decide

/-- Claim C7 (amended). A package whose header has truthy `name`, `version`,
`tags` and `author` fields and a scalar description containing "use when",
and whose 25-line body contains a fenced code block AND satisfies the
review-mode step heuristic (a numbered item or a step/phase/stage heading),
scores 100 in lint mode and 100 with no warnings in review mode; without
the step heuristic, review mode adds one warning (see the
counterexample). -/
theorem claim_C7_amended (content : String) (pd : ParsedDoc) (d : String)
    (hp : parseSkillFile content = .ok pd)
    (hname : truthyLookup pd.frontmatter "name" = true)
    (hver : truthyLookup pd.frontmatter "version" = true)
    (htags : truthyLookup pd.frontmatter "tags" = true)
    (hauth : truthyLookup pd.frontmatter "author" = true)
    (hdesc : lookupField pd.frontmatter "description" = some (.scalar d))
    (htrig : jsIncludes (lowerStr d) "use when" = true)
    (hfence : jsIncludes pd.body "```" = true)
    (hlines : countLines pd.body = 25)
    (hsteps : hasStepsB pd.body = true) :
    validateSkill (some content) false = some ⟨true, [], [], 100⟩
    ∧ validateSkill (some content) true = some ⟨true, [], [], 100⟩ := by
  have hdne : d ≠ "" := by
    intro he
    subst he
    simp [jsIncludes, lowerStr, lowerList, containsSub, startsWithL] at htrig
  have hdesc' : truthyLookup pd.frontmatter "description" = true := by
    unfold truthyLookup
    rw [hdesc]
    simp [truthyV, hdne]
  have herrs : (REQUIRED_FIELDS.filter (fun f => !(truthyLookup pd.frontmatter f))) = [] := by
    unfold REQUIRED_FIELDS
    simp [List.filter_cons, hname, hdesc', hver, htags]
  have hwrec : (RECOMMENDED_FIELDS.filter (fun f => !(truthyLookup pd.frontmatter f))) = [] := by
    unfold RECOMMENDED_FIELDS
    simp [List.filter_cons, hauth]
  have hvw : verboseWarnings pd = some [] := by
    unfold verboseWarnings descTriggerWarn
    rw [hdesc]
    simp [truthyV, hdne, htrig, hfence, hsteps, hlines]
  constructor
  · simp [validateSkill, hp, herrs, hwrec]
  · simp [validateSkill, hp, herrs, hwrec, hvw]

set_option maxRecDepth 20000 in
/-- Claim C7 (witness for the amended theorem) at `cReviewOk`: the scenario
header over the 25-line body with a `## Steps` heading. -/
theorem claim_C7_amended_witness :
    validateSkill (some cReviewOk) false = some ⟨true, [], [], 100⟩
    ∧ validateSkill (some cReviewOk) true = some ⟨true, [], [], 100⟩ :=
  claim_C7_amended cReviewOk pdReviewOk "Use when testing" (by decide) (by decide) (by decide)
    (by decide) (by decide) (by decide) (by decide) (by decide) (by decide) (by decide)

/-- Claim C8. In all-skills mode the run exits 0 exactly when every
package's result passed (run-level pass is the AND of the individual
`passed` flags), and aggregating zero packages yields average score 0 via
the explicit length guard, with no division by zero. -/
theorem claim_C8 :
    (∀ results : List SkillResult,
        ((runAllSummary results).exitCode = 0 ↔ ∀ r ∈ results, r.passed = true))
    ∧ (runAllSummary []).avgScore = 0 := by
  exact ⟨runAllSummary_exit_iff, rfl⟩

/-- Claim C8 (witness): a singleton passing run exits 0. -/
theorem claim_C8_witness :
    (runAllSummary [⟨true, [], [], 100⟩]).exitCode = 0 :=
  (claim_C8.1 [⟨true, [], [], 100⟩]).mpr (by decide)

/-- Claim C9. Header lines produce fields only when they match
`^(\w+):\s*(.+)$`: every parsed key is a nonempty run of word characters
immediately followed by a colon; an all-word key with an empty value is
silently skipped; consequently every key stored in a parsed frontmatter is
word-only (a hyphenated key is never stored), and a required or recommended
field absent from the frontmatter is reported missing by the validator. -/
theorem claim_C9 :
    (∀ line k v, parseHeaderLine line = some (k, v) →
        k ≠ [] ∧ k.all isWordChar = true ∧ startsWithL (k ++ [':']) line = true)
    ∧ (∀ k : List Char, k.all isWordChar = true → parseHeaderLine (k ++ [':']) = none)
    ∧ (∀ (content : String) (pd : ParsedDoc) (k : String) (fv : FieldValue),
        parseSkillFile content = .ok pd → lookupField pd.frontmatter k = some fv →
        k.data ≠ [] ∧ k.data.all isWordChar = true)
    ∧ (∀ (content : String) (pd : ParsedDoc) (v : Bool) (r : SkillResult) (f : String),
        parseSkillFile content = .ok pd → validateSkill (some content) v = some r →
        f ∈ REQUIRED_FIELDS → lookupField pd.frontmatter f = none →
        ("Missing required field: " ++ f) ∈ r.errors)
    ∧ (∀ (content : String) (pd : ParsedDoc) (v : Bool) (r : SkillResult) (f : String),
        parseSkillFile content = .ok pd → validateSkill (some content) v = some r →
        f ∈ RECOMMENDED_FIELDS → lookupField pd.frontmatter f = none →
        ("Missing recommended field: " ++ f) ∈ r.warnings) := by
  refine ⟨?_, ?_, ?_, ?_, ?_⟩
  · intro line k v h
    obtain ⟨h1, h2, h3, _⟩ := parseHeaderLine_shape line k v h
    exact ⟨h1, h2, h3⟩
  · exact parseHeaderLine_empty_value
  · intro content pd k fv hp h
    exact parseSkillFile_keys_word content pd hp k fv h
  · intro content pd v r f hp hr hf hmiss
    exact validateSkill_missing_required content pd v r f hp hr hf hmiss
  · intro content pd v r f hp hr hf hmiss
    exact validateSkill_missing_recommended content pd v r f hp hr hf hmiss

/-- Claim C9 (witness): instantiations on `cNine`, whose header holds a
hyphenated key (skipped), an empty-valued `name:` line (skipped), and a
surviving `tags` field. -/
theorem claim_C9_witness :
    ("name".data ≠ [] ∧ "name".data.all isWordChar = true
      ∧ startsWithL ("name".data ++ [':']) "name: x".data = true)
    ∧ parseHeaderLine ("my_key".data ++ [':']) = none
    ∧ ("tags".data ≠ [] ∧ "tags".data.all isWordChar = true)
    ∧ ("Missing required field: " ++ "name") ∈ rNine.errors
    ∧ ("Missing recommended field: " ++ "author") ∈ rNine.warnings :=
  ⟨claim_C9.1 "name: x".data "name".data " x".data.tail (by decide),
   claim_C9.2.1 "my_key".data (by decide),
   claim_C9.2.2.1 cNine pdNine "tags" (.arr ["a"]) (by decide) (by decide),
   claim_C9.2.2.2.1 cNine pdNine false rNine "name" (by decide) (by decide) (by decide) (by decide),
   claim_C9.2.2.2.2 cNine pdNine false rNine "author" (by decide) (by decide) (by decide) (by decide)⟩

/-- Claim C10. A missing `SKILL.md` and an unparseable one both return early
from `validateSkill` with `passed = false` and the initial score 0 (the
subtractive scoring block is never reached): the fixed single-error result
records score 0 regardless of its error list. -/
theorem claim_C10 (v : Bool) :
    validateSkill none v = some ⟨false, ["SKILL.md not found"], [], 0⟩
    ∧ ∀ (content e : String), parseSkillFile content = .error e →
        validateSkill (some content) v = some ⟨false, ["Failed to parse: " ++ e], [], 0⟩ := by
  constructor
  · rfl
  · intro content e hp
    exact validateSkill_parse_error content e v hp

/-- Claim C10 (witness): a missing file and the unparseable document
`"hello"`, both in review mode. -/
theorem claim_C10_witness :
    validateSkill none true = some ⟨false, ["SKILL.md not found"], [], 0⟩
    ∧ validateSkill (some "hello") true
        = some ⟨false, ["Failed to parse: " ++ "No YAML frontmatter found"], [], 0⟩ :=
  ⟨(claim_C10 true).1, (claim_C10 true).2 "hello" "No YAML frontmatter found" (by decide)⟩
